import Mathlib

/-!
Verification development for the Data Processing section of
`src/assessment.ipynb`: a checkpointed, streaming ingestion pipeline that
consolidates each dataset folder's raw files into one newline-delimited
compressed artifact.

The shallow embedding below follows the notebook cell that defines
`clean_cols`, `row_hash`, `csv_rows`, `json_rows`, `load_ckpt`, `save_ckpt`,
`process` and `run_all`.  External library collaborators (`json.loads`,
`pandas.read_csv`) are abstract parameters bundled in `Env`; the on-disk
world a dataset touches (its raw folder, checkpoint file, part-file and
final artifact) is the `FS` structure; writes to the compressed stream are
modelled as immediately applied (buffering/flushing is not separately
observable in the model).
-/

namespace Assessment

/-- A record: one row/line as Python's `dict` holds it — an
insertion-ordered association list with pairwise distinct keys; values are
kept opaque as the text of their serialized form. -/
abbrev Rec := List (String × String)

/-- Python's whitespace class for `str.strip()` (ASCII part). -/
def wsChar (c : Char) : Bool :=
  c = ' ' || c = '\t' || c = '\n' || c = '\r' || c = '\x0b' || c = '\x0c'

/-- Python `str.strip()`: drop whitespace from both ends. -/
def pyStrip (s : String) : String :=
  String.mk (((s.data.dropWhile wsChar).reverse.dropWhile wsChar).reverse)

/-- Code-point lexicographic `<=` on character lists — Python's string
comparison. -/
def lexLe : List Char → List Char → Bool
  | [], _ => true
  | _ :: _, [] => false
  | a :: as, b :: bs => if a.toNat = b.toNat then lexLe as bs else decide (a.toNat < b.toNat)

/-- Code-point lexicographic `<` on character lists. -/
def lexLt : List Char → List Char → Bool
  | [], [] => false
  | [], _ :: _ => true
  | _ :: _, [] => false
  | a :: as, b :: bs => if a.toNat = b.toNat then lexLt as bs else decide (a.toNat < b.toNat)

/-- Python `s <= t` on strings. -/
def strLe (s t : String) : Bool := lexLe s.data t.data

/-- Python `s < t` on strings. -/
def strLt (s t : String) : Bool := lexLt s.data t.data

/-- ASCII lower-casing of one character (`str.lower()`). -/
def lowerChar (c : Char) : Char :=
  if 'A'.toNat ≤ c.toNat && c.toNat ≤ 'Z'.toNat then Char.ofNat (c.toNat + 32) else c

/-- Python `str.lower()`. -/
def lowerStr (s : String) : String := String.mk (s.data.map lowerChar)

/-- Is this character an ASCII digit? -/
def digitChar (c : Char) : Bool := '0'.toNat ≤ c.toNat && c.toNat ≤ '9'.toNat

/-- Python `int()` on an already-stripped string, for the row counts the
pipeline writes: canonical decimal numerals are accepted, anything else
raises (`none`). -/
def pyInt (s : String) : Option Nat :=
  if !s.data.isEmpty && s.data.all digitChar then
    some (s.data.foldl (fun n c => n * 10 + (c.toNat - '0'.toNat)) 0)
  else none

/-- Python `k.split(".")` on the character list: splits at every `'.'`,
keeps empty groups, and never returns an empty group list
(`"".split(".") == [""]`). -/
def splitDot : List Char → List (List Char)
  | [] => [[]]
  | c :: cs =>
    match splitDot cs with
    | [] => [[]]
    | g :: gs => if c = '.' then [] :: g :: gs else (c :: g) :: gs

/-- The key normalizer inside `clean_cols`: `k.split(".")[-1]`, the suffix
after the last dot. -/
def normKey (k : String) : String := String.mk ((splitDot k.data).getLastD [])

/-- Python `out[k] = v` on a dict modelled as an assoc list: overwrite in
place when the key is already present, else append at the end. -/
def dictSet (d : Rec) (k v : String) : Rec :=
  if d.any (fun p => p.1 = k) then d.map (fun p => if p.1 = k then (k, v) else p)
  else d ++ [(k, v)]

/-- `clean_cols(rec)`: rebuild the record keyed by `k.split(".")[-1]`; on a
collision of stripped keys the later value wins, as Python's dict
assignment does. -/
def clean_cols (rec : Rec) : Rec :=
  rec.foldl (fun out kv => dictSet out (normKey kv.1) kv.2) []

/-- The keys of a record, in insertion order (Python `for k in rec`). -/
def keys (r : Rec) : List String := r.map Prod.fst

/-- Insert `x` into a list ordered by the `String` image under `f`. -/
def insLe {α : Type} (f : α → String) (x : α) : List α → List α
  | [] => [x]
  | y :: ys => if strLe (f x) (f y) then x :: y :: ys else y :: insLe f x ys

/-- Insertion sort by a `String` key; models Python `sorted` (the lists we
sort — directory entries, dict keys — have pairwise distinct keys, so any
correct sort agrees with Python's). -/
def sortOn {α : Type} (f : α → String) : List α → List α
  | [] => []
  | x :: xs => insLe f x (sortOn f xs)

/-- `row_hash(rec)`: sha1 of `json.dumps(rec, sort_keys=True)`.  The digest
is modelled (sha1 taken as injective on these canonical serializations) by
the key-sorted serialization itself. -/
def row_hash (rec : Rec) : Rec := sortOn Prod.fst rec

/-- `Path(name).suffix`: the part of the final name from its last dot on;
empty when the name has no dot, or the dot is its first or last
character. -/
def pathSuffix (name : String) : String :=
  let cs := name.data
  let pre := cs.reverse.takeWhile (fun c => c ≠ '.')
  if pre.length = cs.length then ""
  else if pre.length = 0 then ""
  else if pre.length + 1 = cs.length then ""
  else String.mk ('.' :: pre.reverse)

/-- Does the pattern occur at the head of the list? -/
def leadsList {α : Type} [DecidableEq α] : List α → List α → Bool
  | [], _ => true
  | _ :: _, [] => false
  | a :: as, b :: bs => a = b && leadsList as bs

/-- Does the pattern occur anywhere inside the list? -/
def containsList {α : Type} [DecidableEq α] (p : List α) : List α → Bool
  | [] => leadsList p []
  | b :: bs => leadsList p (b :: bs) || containsList p bs

/-- Python's `s in t` substring test (the notebook's `ext in (".json")`
is this containment test against the single string `".json"`, not a tuple
membership; e.g. the empty extension passes it). -/
def substrOf (s t : String) : Bool := containsList s.data t.data

/-- Python `set.add` on a set of strings modelled as a duplicate-free
list. -/
def setAdd (s : List String) (x : String) : List String :=
  if x ∈ s then s else s ++ [x]

/-- Add every key of a list (the readers' `for c in r: cols.add(c)`). -/
def addAll (s : List String) (ks : List String) : List String :=
  ks.foldl setAdd s

/-- `set.add` on the digest set. -/
def hashAdd (s : List Rec) (h : Rec) : List Rec :=
  if h ∈ s then s else s ++ [h]

/-- One iteration of the new-column scan in the record loop of `process`:
`if col not in cols_seen: new_cols.append(col); cols_seen.add(col)` over the
pair (cols_seen, new_cols). -/
def colScan (p : List String × List String) (c : String) : List String × List String :=
  if c ∈ p.1 then p else (p.1 ++ [c], p.2 ++ [c])

/-- The log entries the pipeline emits. -/
inductive LogEvent
  | badJson (path : String)
  | dup (ds : String)
  | newCols (ds : String) (cols : List String)
  | skippedFile (path : String)
  | failure (ds : String)
deriving DecidableEq

/-- One event delivered by a record reader: a successfully parsed (already
`clean_cols`-normalized) record, or a malformed line. -/
inductive Ev
  | record (r : Rec)
  | bad
deriving DecidableEq

/-- External parsing collaborators.  `parseJson` models `json.loads` on a
stripped line, `none` standing for `json.JSONDecodeError` (a line whose
parse succeeds but is not a JSON object is outside the model).  `readCsv`
models the chunked `pandas.read_csv` stream over the file's text: the
records it managed to yield, and whether it then raised. -/
structure Env where
  parseJson : String → Option Rec
  readCsv : List String → List Rec × Bool

/-- A raw source file: its name and its text content as lines. -/
structure SrcFile where
  name : String
  lines : List String
deriving DecidableEq

/-- One line of `json_rows`: strip, silently skip when empty, otherwise
parse — a parsed record is normalized by `clean_cols`, a failed parse is a
malformed-line event. -/
def jsonLineEv (env : Env) (line : String) : Option Ev :=
  let l := pyStrip line
  if l = "" then none
  else
    match env.parseJson l with
    | some r => some (Ev.record (clean_cols r))
    | none => some Ev.bad

/-- What `process` does with one source file: skip it (unrecognized
extension) or read a stream of events, which may end in an unrecovered
reader exception. -/
inductive FileAction
  | skip
  | read (evs : List Ev) (fail : Bool)
deriving DecidableEq

/-- The extension dispatch of `process`: `.csv` goes to `csv_rows`, an
extension contained in the string `".json"` goes to `json_rows`, anything
else is skipped and logged. -/
def fileAction (env : Env) (f : SrcFile) : FileAction :=
  let ext := lowerStr (pathSuffix f.name)
  if ext = ".csv" then
    let p := env.readCsv f.lines
    FileAction.read (p.1.map (fun r => Ev.record (clean_cols r))) p.2
  else if substrOf ext ".json" then
    FileAction.read (f.lines.filterMap (jsonLineEv env)) false
  else FileAction.skip

/-- The `stats` dict of `process`. -/
structure Stats where
  rows : Nat
  bad_json : Nat
  dup_seen : Bool
deriving DecidableEq

/-- The mutable state of one dataset run: lines written to the part-file so
far, the on-disk checkpoint file, `stats`, `cols_seen`, `hashes`, and the
log. -/
structure RunState where
  lines : List Rec
  ckpt : Option (String × String)
  stats : Stats
  cols_seen : List String
  hashes : List Rec
  log : List LogEvent
deriving DecidableEq

/-- Processing one reader event.  A malformed line increments `bad_json`
and logs a warning (inside `json_rows`).  A record: the reader adds its
keys to `cols_seen` before yielding; the loop body then hashes it, flags a
first duplicate, re-scans for new columns (against the set the reader has
already filled), writes the line and counts it. -/
def evStep (ds path : String) (st : RunState) : Ev → RunState
  | Ev.bad =>
    { st with
      stats := { st.stats with bad_json := st.stats.bad_json + 1 },
      log := st.log ++ [LogEvent.badJson path] }
  | Ev.record r =>
    let cols0 := addAll st.cols_seen (keys r)
    let h := row_hash r
    let hit := !st.stats.dup_seen && decide (h ∈ st.hashes)
    let dup1 := if hit then true else st.stats.dup_seen
    let log1 := if hit then st.log ++ [LogEvent.dup ds] else st.log
    let hashes1 := hashAdd st.hashes h
    let nc := (keys r).foldl colScan (cols0, ([] : List String))
    let log2 := if nc.2.isEmpty then log1 else log1 ++ [LogEvent.newCols ds nc.2]
    { lines := st.lines ++ [r],
      ckpt := st.ckpt,
      stats := { rows := st.stats.rows + 1, bad_json := st.stats.bad_json,
                 dup_seen := dup1 },
      cols_seen := nc.1,
      hashes := hashes1,
      log := log2 }

/-- Drain a reader's event stream through the record loop. -/
def runEvs (ds path : String) (st : RunState) (evs : List Ev) : RunState :=
  evs.foldl (evStep ds path) st

/-- `save_ckpt`: overwrite the checkpoint file with the file name and the
decimal row count, one per line. -/
def save_ckpt (name : String) (rows : Nat) : Option (String × String) :=
  some (name, toString rows)

/-- Process one source file: unrecognized extensions are logged and
skipped; otherwise the events are drained and, if the reader did not
raise, the checkpoint is saved with this file's name and the cumulative
row count.  The `Bool` is true when an unrecovered reader exception
aborted the file. -/
def runFile (env : Env) (ds : String) (st : RunState) (f : SrcFile) :
    RunState × Bool :=
  match fileAction env f with
  | FileAction.skip => ({ st with log := st.log ++ [LogEvent.skippedFile f.name] }, false)
  | FileAction.read evs fail =>
    let st1 := runEvs ds f.name st evs
    if fail then (st1, true)
    else ({ st1 with ckpt := save_ckpt f.name st1.stats.rows }, false)

/-- The resume guard `if last_done and src.name <= last_done: continue`
(Python truthiness: `None` and the empty string disable the guard). -/
def skipFile (lastDone : Option String) (name : String) : Bool :=
  match lastDone with
  | none => false
  | some l => !(l == "") && strLe name l

/-- The file loop of `process` over the (already name-sorted) directory
listing, with the resume guard; stops at the first unrecovered reader
exception. -/
def runFilesGo (env : Env) (ds : String) (lastDone : Option String) :
    RunState → List SrcFile → RunState × Bool
  | st, [] => (st, false)
  | st, f :: fs =>
    if skipFile lastDone f.name then runFilesGo env ds lastDone st fs
    else
      let p := runFile env ds st f
      if p.2 then (p.1, true) else runFilesGo env ds lastDone p.1 fs

/-- The same file loop with no resume guard at all (what the loop does when
no checkpoint constrains it). -/
def runFilesNoSkip (env : Env) (ds : String) :
    RunState → List SrcFile → RunState × Bool
  | st, [] => (st, false)
  | st, f :: fs =>
    let p := runFile env ds st f
    if p.2 then (p.1, true) else runFilesNoSkip env ds p.1 fs

/-- `load_ckpt`: absent file gives `(None, 0)`; otherwise the first line
(stripped) is the name and the second parses as the row count, an empty
second line defaulting to 0.  A non-numeric second line makes `int()`
raise — the `Except.error` — and nothing in `process` catches that.
(Python `int` also accepts signs; the claims only exercise canonical
decimal counts, which both sides accept, and garbage, which both
reject.) -/
def load_ckpt : Option (String × String) → Except Unit (Option String × Nat)
  | none => Except.ok (none, 0)
  | some (l1, l2) =>
    let name := pyStrip l1
    let s := pyStrip l2
    if s = "" then Except.ok (some name, 0)
    else
      match pyInt s with
      | some n => Except.ok (some name, n)
      | none => Except.error ()

/-- The on-disk world of one dataset: its raw folder (absent or a directory
listing, in arbitrary order), its checkpoint file (two lines), its
part-file and its final artifact (lines of records). -/
structure FS where
  folder : Option (List SrcFile)
  ckptFile : Option (String × String)
  part : Option (List Rec)
  final : Option (List Rec)
deriving DecidableEq

/-- What `process` reports for a dataset: folder missing, the caught-error
line, or the success summary. -/
inductive Report
  | missing
  | failed
  | summary (rows bad_json : Nat) (dup_seen : Bool) (columns : Nat)
deriving DecidableEq

/-- The observable outcome of `process`: the dataset's on-disk world
afterwards, the console report, the log, and (when a run happened) the
final in-memory run state. -/
structure ProcResult where
  fs : FS
  report : Report
  log : List LogEvent
  state : Option RunState
deriving DecidableEq

/-- `sorted(folder.iterdir())`. -/
def sortFiles (l : List SrcFile) : List SrcFile := sortOn (fun f => f.name) l

/-- Opening the part-file: append mode keeps its content when the
checkpointed row count is nonzero, else write mode truncates;
`stats = {"rows": rows_done, "bad_json": 0, "dup_seen": False}`, and
`cols_seen` and `hashes` start empty (they are not rebuilt on resume). -/
def initState (fs : FS) (rowsDone : Nat) : RunState :=
  { lines := if rowsDone ≠ 0 then fs.part.getD [] else []
    ckpt := fs.ckptFile
    stats := { rows := rowsDone, bad_json := 0, dup_seen := false }
    cols_seen := []
    hashes := []
    log := [] }

/-- `process(ds)`.  Missing folder: report and return.  `load_ckpt` runs
before the guarded block, so its `int()` failure propagates
(`Except.error`).  Inside the guarded block the sorted files are streamed;
an unrecovered reader exception closes the stream and leaves the part-file
and checkpoint for a future resume; full success renames the part-file to
the final artifact and unlinks the checkpoint. -/
def process (env : Env) (ds : String) (fs : FS) : Except Unit ProcResult :=
  match fs.folder with
  | none => Except.ok ⟨fs, Report.missing, [], none⟩
  | some folder =>
    match load_ckpt fs.ckptFile with
    | Except.error e => Except.error e
    | Except.ok (lastDone, rowsDone) =>
      let st0 := initState fs rowsDone
      let p := runFilesGo env ds lastDone st0 (sortFiles folder)
      let st := p.1
      if p.2 then
        Except.ok ⟨{ fs with part := some st.lines, ckptFile := st.ckpt },
          Report.failed, st.log ++ [LogEvent.failure ds], some st⟩
      else
        Except.ok ⟨{ fs with part := none, ckptFile := none, final := some st.lines },
          Report.summary st.stats.rows st.stats.bad_json st.stats.dup_seen
            st.cols_seen.length,
          st.log, some st⟩

/-- The orchestrator's fixed dataset list. -/
def datasetNames : List String := ["orders", "playlist_track", "track_facts", "tracks"]

/-- `run_all`'s loop: datasets in order; a `process` call that raises an
uncaught exception terminates the loop (the `Bool` is true and the
remaining datasets are never reached); each dataset's world is its own
disjoint set of paths, so the worlds are indexed by name. -/
def runAllGo (env : Env) (world : String → FS) :
    List String → List (String × Report) × Bool
  | [] => ([], false)
  | d :: ds =>
    match process env d (world d) with
    | Except.error _ => ([], true)
    | Except.ok r =>
      let rest := runAllGo env world ds
      ((d, r.report) :: rest.1, rest.2)

/-- `run_all()`: the per-dataset reports in order, and whether an uncaught
exception killed the run. -/
def run_all (env : Env) (world : String → FS) : List (String × Report) × Bool :=
  runAllGo env world datasetNames

/-- The report `process` would print for a dataset (used to state what a
completed `run_all` contains). -/
def processReport (env : Env) (d : String) (fs : FS) : Report :=
  match process env d fs with
  | Except.ok r => r.report
  | Except.error _ => Report.failed

/-- Does `load_ckpt` read this dataset's checkpoint file without raising? -/
def ckptReadable (fs : FS) : Bool :=
  match load_ckpt fs.ckptFile with
  | Except.ok _ => true
  | Except.error _ => false

/-- The records carried by an event stream, in order. -/
def recsOf (evs : List Ev) : List Rec :=
  evs.filterMap (fun e => match e with | Ev.record r => some r | Ev.bad => none)

/-- Is this event a malformed-line event? -/
def isBadEv : Ev → Bool
  | Ev.bad => true
  | Ev.record _ => false

/-- The successfully parsed (normalized) records of one source file; empty
for a skipped extension. -/
def fileRecs (env : Env) (f : SrcFile) : List Rec :=
  match fileAction env f with
  | FileAction.skip => []
  | FileAction.read evs _ => recsOf evs

/-- Does reading this file end in an unrecovered exception? -/
def fileFails (env : Env) (f : SrcFile) : Bool :=
  match fileAction env f with
  | FileAction.skip => false
  | FileAction.read _ fail => fail

/-- All successfully parsed records of a list of files, in order. -/
def allRecs (env : Env) (files : List SrcFile) : List Rec :=
  (files.map (fileRecs env)).flatten

/-- Is this log entry a new-column diagnostic? -/
def isNewColsEv : LogEvent → Bool
  | LogEvent.newCols _ _ => true
  | _ => false

/-- The records a line-JSON file yields. -/
def jsonGoodRecs (env : Env) (lines : List String) : List Rec :=
  recsOf (lines.filterMap (jsonLineEv env))

/-- How many lines of a line-JSON file fail to parse. -/
def jsonBadCount (env : Env) (lines : List String) : Nat :=
  (lines.filterMap (jsonLineEv env)).countP isBadEv

/-! ### Concrete fixtures (environments and worlds used to exercise the
pipeline on explicit inputs) -/

/-- A concrete environment: `json.loads` succeeds on the lines `g1`, `g2`,
`g3` (standing for three JSON objects) and fails on everything else;
`pandas.read_csv` yields two rows on the text `c1` and raises after one
yielded row on the text `cfail`. -/
def envW : Env :=
  { parseJson := fun s =>
      if s = "g1" then some [("a.x", "1")]
      else if s = "g2" then some [("x", "2")]
      else if s = "g3" then some [("x", "1"), ("b", "2")]
      else none
    readCsv := fun ls =>
      if ls = ["c1"] then ([[("k", "1")], [("k", "2")]], false)
      else if ls = ["cfail"] then ([[("k", "9")]], true)
      else ([], false) }

/-- A fresh run state: nothing written, no checkpoint, zeroed stats. -/
def stW : RunState := ⟨[], none, ⟨0, 0, false⟩, [], [], []⟩

/-- A line-JSON file with 3 well-formed and 2 malformed lines. -/
def fW : SrcFile := ⟨"d.json", ["g1", "oops1", "g2", "oops2", "g3"]⟩

/-- A directory listing with two JSON files and one CSV file. -/
def filesW : List SrcFile := [⟨"a.json", ["ga"]⟩, ⟨"b.json", ["g2"]⟩, ⟨"c.csv", ["c1"]⟩]

/-- A dataset whose single CSV file raises mid-read under `envW`. -/
def fs3 : FS := ⟨some [⟨"f.csv", ["cfail"]⟩], none, none, none⟩

/-- The outcome of processing `fs3` under `envW` (a caught reader failure). -/
def res3 : ProcResult :=
  match process envW "d" fs3 with
  | Except.ok r => r
  | Except.error _ => ⟨fs3, Report.missing, [], none⟩

/-- An environment in which reading `b.csv`'s text raises after one yielded
row (the transient I/O failure of the first run). -/
def envFail : Env :=
  { parseJson := fun s => if s = "ga" then some [("a", "1")] else none
    readCsv := fun ls => if ls = ["cb"] then ([[("b", "9")]], true) else ([], false) }

/-- The same environment after the transient failure clears: `b.csv` reads
fully. -/
def envOk : Env :=
  { parseJson := fun s => if s = "ga" then some [("a", "1")] else none
    readCsv := fun ls => if ls = ["cb"] then ([[("b", "9")]], false) else ([], false) }

/-- A dataset folder with one JSON file and one CSV file after it. -/
def folder1 : List SrcFile := [⟨"a.json", ["ga"]⟩, ⟨"b.csv", ["cb"]⟩]

/-- The dataset's world before any run. -/
def fsFresh : FS := ⟨some folder1, none, none, none⟩

/-- The world `process` leaves behind when the first run dies inside
`b.csv` after one of its records was already written: the checkpoint names
`a.json` with one committed row, while the part-file already holds two
lines. -/
def fsCrashed : FS :=
  ⟨some folder1, some ("a.json", "1"), some [[("a", "1")], [("b", "9")]], none⟩

/-- A world whose `orders` checkpoint file carries a non-numeric row count;
every other dataset folder exists. -/
def worldBad : String → FS := fun d =>
  if d = "orders" then ⟨some [], some ("x", "abc"), none, none⟩
  else ⟨none, none, none, none⟩

/-- A world where `orders` fails (caught) inside its CSV reader and the
other datasets' folders are absent. -/
def worldG : String → FS := fun d =>
  if d = "orders" then fs3 else ⟨none, none, none, none⟩

/-- A dataset with one record carrying one brand-new column. -/
def fs7 : FS := ⟨some [⟨"a.json", ["g1"]⟩], none, none, none⟩

/-- A folder with a JSON file and a CSV file contributing columns
`x`, `b` and `k`. -/
def folder8 : List SrcFile := [⟨"a.json", ["g1", "g3"]⟩, ⟨"b.csv", ["c1"]⟩]

/-- The dataset owning `folder8`, with no prior checkpoint. -/
def fs8 : FS := ⟨some folder8, none, none, none⟩

/-- The world of `folder1` resumed from a clean file-boundary interruption:
checkpoint `(a.json, 1)` and a part-file holding exactly 1 line. -/
def fs1W : FS := ⟨some folder1, some ("a.json", "1"), some [[("a", "1")]], none⟩

/-- Two records equal as key-sorted serializations but built in different
insertion orders. -/
def rW : Rec := [("a", "1"), ("b", "2")]

/-- The same content as `rW` with the keys in the other order. -/
def rW2 : Rec := [("b", "2"), ("a", "1")]

/-- Events before the first occurrence, between the two occurrences, and
after the second occurrence, for the duplicate-flag witness. -/
def preW : List Ev := [Ev.bad]

/-- Events between the duplicate pair. -/
def midW : List Ev := [Ev.record [("y", "9")]]

/-- Events after the duplicate pair (a further distinct record). -/
def postW : List Ev := [Ev.bad, Ev.record [("z", "3")]]

/-! ### Lemmas: order primitives -/

theorem lexLe_eq_not_lexLt : ∀ as bs : List Char, lexLe as bs = !lexLt bs as
  | [], [] => by simp [lexLe, lexLt]
  | [], _ :: _ => by simp [lexLe, lexLt]
  | _ :: _, [] => by simp [lexLe, lexLt]
  | a :: as, b :: bs => by
    simp only [lexLe, lexLt]
    by_cases h : a.toNat = b.toNat
    · simp [h, lexLe_eq_not_lexLt as bs]
    · have h' : ¬ b.toNat = a.toNat := fun hh => h hh.symm
      by_cases hab : a.toNat < b.toNat
      · have hba : ¬ b.toNat < a.toNat := by omega
        simp [h, h', hab, hba]
      · have hba : b.toNat < a.toNat := by omega
        simp [h, h', hab, hba]

theorem strLe_false_iff {s t : String} : strLe s t = false ↔ strLt t s = true := by
  rw [strLe, strLt, lexLe_eq_not_lexLt]
  cases lexLt t.data s.data <;> simp

/-! ### Lemmas: Python-set primitives -/

theorem mem_setAdd {s : List String} {x c : String} :
    c ∈ setAdd s x ↔ c ∈ s ∨ c = x := by
  by_cases h : x ∈ s
  · simp only [setAdd, if_pos h]
    constructor
    · exact Or.inl
    · rintro (hc | rfl)
      · exact hc
      · exact h
  · simp [setAdd, if_neg h]

theorem nodup_setAdd {s : List String} {x : String} (h : s.Nodup) :
    (setAdd s x).Nodup := by
  by_cases hx : x ∈ s
  · simpa [setAdd, if_pos hx] using h
  · simp only [setAdd, if_neg hx]
    exact List.Nodup.append h (List.nodup_singleton x)
      (by simpa [List.disjoint_singleton] using hx)

theorem mem_addAll {ks : List String} : ∀ {s : List String} {c : String},
    c ∈ addAll s ks ↔ c ∈ s ∨ c ∈ ks := by
  induction ks with
  | nil => intro s c; simp [addAll]
  | cons k ks ih =>
    intro s c
    have : addAll s (k :: ks) = addAll (setAdd s k) ks := rfl
    rw [this, ih, mem_setAdd]
    simp [or_assoc]

theorem nodup_addAll {ks : List String} : ∀ {s : List String},
    s.Nodup → (addAll s ks).Nodup := by
  induction ks with
  | nil => intro s h; simpa [addAll] using h
  | cons k ks ih =>
    intro s h
    have : addAll s (k :: ks) = addAll (setAdd s k) ks := rfl
    rw [this]
    exact ih (nodup_setAdd h)

theorem mem_hashAdd {s : List Rec} {x c : Rec} :
    c ∈ hashAdd s x ↔ c ∈ s ∨ c = x := by
  by_cases h : x ∈ s
  · simp only [hashAdd, if_pos h]
    constructor
    · exact Or.inl
    · rintro (hc | rfl)
      · exact hc
      · exact h
  · simp [hashAdd, if_neg h]

theorem colScan_foldl_of_subset :
    ∀ (ks : List String) (p : List String × List String),
      (∀ c ∈ ks, c ∈ p.1) → ks.foldl colScan p = p
  | [], _, _ => rfl
  | k :: ks, p, h => by
    have hk : k ∈ p.1 := h k (by simp)
    have : colScan p k = p := by simp [colScan, hk]
    rw [List.foldl_cons, this]
    exact colScan_foldl_of_subset ks p (fun c hc => h c (by simp [hc]))

/-! ### Lemmas: one record-loop step -/

theorem evStep_record_eq (ds path : String) (st : RunState) (r : Rec) :
    evStep ds path st (Ev.record r) =
      { lines := st.lines ++ [r],
        ckpt := st.ckpt,
        stats := { rows := st.stats.rows + 1, bad_json := st.stats.bad_json,
                   dup_seen := st.stats.dup_seen || decide (row_hash r ∈ st.hashes) },
        cols_seen := addAll st.cols_seen (keys r),
        hashes := hashAdd st.hashes (row_hash r),
        log := st.log ++
          (if !st.stats.dup_seen && decide (row_hash r ∈ st.hashes)
           then [LogEvent.dup ds] else []) } := by
  have hsub : ∀ c ∈ keys r, c ∈ (addAll st.cols_seen (keys r), ([] : List String)).1 :=
    fun c hc => mem_addAll.mpr (Or.inr hc)
  have hfold := colScan_foldl_of_subset (keys r) (addAll st.cols_seen (keys r), []) hsub
  simp only [evStep, hfold]
  cases hd : st.stats.dup_seen <;>
    cases hm : decide (row_hash r ∈ st.hashes) <;> simp

theorem evStep_bad_eq (ds path : String) (st : RunState) :
    evStep ds path st Ev.bad =
      { st with
        stats := { st.stats with bad_json := st.stats.bad_json + 1 },
        log := st.log ++ [LogEvent.badJson path] } := rfl

theorem evStep_dup_of_mem {st : RunState} {r : Rec} (ds path : String)
    (h : row_hash r ∈ st.hashes) :
    (evStep ds path st (Ev.record r)).stats.dup_seen = true := by
  rw [evStep_record_eq]; simp [h]

theorem evStep_hash_self (ds path : String) (st : RunState) (r : Rec) :
    row_hash r ∈ (evStep ds path st (Ev.record r)).hashes := by
  rw [evStep_record_eq]
  exact mem_hashAdd.mpr (Or.inr rfl)

theorem evStep_log_newCount (ds path : String) (st : RunState) (e : Ev) :
    ((evStep ds path st e).log).countP isNewColsEv = st.log.countP isNewColsEv := by
  cases e with
  | record r =>
    rw [evStep_record_eq]
    simp only [List.countP_append]
    split <;> simp [isNewColsEv, List.countP_cons]
  | bad =>
    rw [evStep_bad_eq]
    simp [List.countP_append, isNewColsEv, List.countP_cons]

/-! ### Lemmas: draining an event stream -/

theorem runEvs_cons (ds path : String) (st : RunState) (e : Ev) (evs : List Ev) :
    runEvs ds path st (e :: evs) = runEvs ds path (evStep ds path st e) evs := rfl

theorem runEvs_append (ds path : String) (st : RunState) (a b : List Ev) :
    runEvs ds path st (a ++ b) = runEvs ds path (runEvs ds path st a) b :=
  List.foldl_append _ _ _ _

theorem recsOf_cons_record (r : Rec) (evs : List Ev) :
    recsOf (Ev.record r :: evs) = r :: recsOf evs := rfl

theorem recsOf_cons_bad (evs : List Ev) : recsOf (Ev.bad :: evs) = recsOf evs := rfl

theorem runEvs_lines (ds path : String) (evs : List Ev) : ∀ st : RunState,
    (runEvs ds path st evs).lines = st.lines ++ recsOf evs := by
  induction evs with
  | nil => intro st; simp [runEvs, recsOf]
  | cons e evs ih =>
    intro st
    rw [runEvs_cons, ih]
    cases e with
    | record r => rw [evStep_record_eq, recsOf_cons_record]; simp
    | bad => rw [evStep_bad_eq, recsOf_cons_bad]

theorem runEvs_rows (ds path : String) (evs : List Ev) : ∀ st : RunState,
    (runEvs ds path st evs).stats.rows = st.stats.rows + (recsOf evs).length := by
  induction evs with
  | nil => intro st; simp [runEvs, recsOf]
  | cons e evs ih =>
    intro st
    rw [runEvs_cons, ih]
    cases e with
    | record r => rw [evStep_record_eq, recsOf_cons_record]; simp; omega
    | bad => rw [evStep_bad_eq, recsOf_cons_bad]

theorem runEvs_bad_json (ds path : String) (evs : List Ev) : ∀ st : RunState,
    (runEvs ds path st evs).stats.bad_json = st.stats.bad_json + evs.countP isBadEv := by
  induction evs with
  | nil => intro st; simp [runEvs]
  | cons e evs ih =>
    intro st
    rw [runEvs_cons, ih]
    cases e with
    | record r => rw [evStep_record_eq]; simp [List.countP_cons, isBadEv]
    | bad => rw [evStep_bad_eq]; simp [List.countP_cons, isBadEv]; omega

theorem runEvs_ckpt (ds path : String) (evs : List Ev) : ∀ st : RunState,
    (runEvs ds path st evs).ckpt = st.ckpt := by
  induction evs with
  | nil => intro st; simp [runEvs]
  | cons e evs ih =>
    intro st
    rw [runEvs_cons, ih]
    cases e with
    | record r => rw [evStep_record_eq]
    | bad => rw [evStep_bad_eq]

theorem runEvs_dup_mono (ds path : String) (evs : List Ev) : ∀ st : RunState,
    st.stats.dup_seen = true → (runEvs ds path st evs).stats.dup_seen = true := by
  induction evs with
  | nil => intro st h; simpa [runEvs] using h
  | cons e evs ih =>
    intro st h
    rw [runEvs_cons]
    refine ih _ ?_
    cases e with
    | record r => rw [evStep_record_eq]; simp [h]
    | bad => rw [evStep_bad_eq]; simpa using h

theorem runEvs_hashes_mono (ds path : String) (evs : List Ev) : ∀ (st : RunState) (x : Rec),
    x ∈ st.hashes → x ∈ (runEvs ds path st evs).hashes := by
  induction evs with
  | nil => intro st x h; simpa [runEvs] using h
  | cons e evs ih =>
    intro st x h
    rw [runEvs_cons]
    refine ih _ _ ?_
    cases e with
    | record r => rw [evStep_record_eq]; exact mem_hashAdd.mpr (Or.inl h)
    | bad => rw [evStep_bad_eq]; simpa using h

theorem runEvs_cols (ds path : String) (evs : List Ev) : ∀ (st : RunState) (c : String),
    c ∈ (runEvs ds path st evs).cols_seen ↔
      c ∈ st.cols_seen ∨ ∃ r, r ∈ recsOf evs ∧ c ∈ keys r := by
  induction evs with
  | nil => intro st c; simp [runEvs, recsOf]
  | cons e evs ih =>
    intro st c
    rw [runEvs_cons, ih]
    cases e with
    | record r =>
      rw [evStep_record_eq, recsOf_cons_record]
      simp only [RunState.mk.injEq]
      constructor
      · rintro (h | ⟨r', hr', hc⟩)
        · rcases mem_addAll.mp h with h | h
          · exact Or.inl h
          · exact Or.inr ⟨r, by simp, h⟩
        · exact Or.inr ⟨r', by simp [hr'], hc⟩
      · rintro (h | ⟨r', hr', hc⟩)
        · exact Or.inl (mem_addAll.mpr (Or.inl h))
        · rcases List.mem_cons.mp hr' with rfl | hr'
          · exact Or.inl (mem_addAll.mpr (Or.inr hc))
          · exact Or.inr ⟨r', hr', hc⟩
    | bad => rw [evStep_bad_eq, recsOf_cons_bad]

theorem runEvs_cols_nodup (ds path : String) (evs : List Ev) : ∀ st : RunState,
    st.cols_seen.Nodup → (runEvs ds path st evs).cols_seen.Nodup := by
  induction evs with
  | nil => intro st h; simpa [runEvs] using h
  | cons e evs ih =>
    intro st h
    rw [runEvs_cons]
    refine ih _ ?_
    cases e with
    | record r => rw [evStep_record_eq]; exact nodup_addAll h
    | bad => rw [evStep_bad_eq]; simpa using h

theorem runEvs_log_newCount (ds path : String) (evs : List Ev) : ∀ st : RunState,
    ((runEvs ds path st evs).log).countP isNewColsEv = st.log.countP isNewColsEv := by
  induction evs with
  | nil => intro st; simp [runEvs]
  | cons e evs ih =>
    intro st
    rw [runEvs_cons, ih, evStep_log_newCount]

/-! ### Lemmas: processing one source file -/

theorem strLe_eq_not_strLt (s t : String) : strLe s t = !strLt t s :=
  lexLe_eq_not_lexLt s.data t.data

theorem allRecs_cons (env : Env) (f : SrcFile) (fs : List SrcFile) :
    allRecs env (f :: fs) = fileRecs env f ++ allRecs env fs := by
  simp [allRecs]

theorem allRecs_nil (env : Env) : allRecs env [] = [] := rfl

theorem allRecs_mem (env : Env) (files : List SrcFile) (r : Rec) :
    r ∈ allRecs env files ↔ ∃ f, f ∈ files ∧ r ∈ fileRecs env f := by
  simp [allRecs, List.mem_flatten]

theorem runFile_eq_skip {env : Env} {f : SrcFile}
    (h : fileAction env f = FileAction.skip) (ds : String) (st : RunState) :
    runFile env ds st f =
      ({ st with log := st.log ++ [LogEvent.skippedFile f.name] }, false) := by
  simp [runFile, h]

theorem runFile_eq_read {env : Env} {f : SrcFile} {evs : List Ev} {fail : Bool}
    (h : fileAction env f = FileAction.read evs fail) (ds : String) (st : RunState) :
    runFile env ds st f =
      (if fail then (runEvs ds f.name st evs, true)
       else ({ runEvs ds f.name st evs with
               ckpt := save_ckpt f.name (runEvs ds f.name st evs).stats.rows }, false)) := by
  simp only [runFile, h]

theorem runFile_not_fail_spec (env : Env) (ds : String) (st : RunState) (f : SrcFile)
    (h : fileFails env f = false) :
    (runFile env ds st f).2 = false ∧
    (runFile env ds st f).1.lines = st.lines ++ fileRecs env f ∧
    (runFile env ds st f).1.stats.rows = st.stats.rows + (fileRecs env f).length ∧
    (∀ c, c ∈ (runFile env ds st f).1.cols_seen ↔
      c ∈ st.cols_seen ∨ ∃ r, r ∈ fileRecs env f ∧ c ∈ keys r) ∧
    (st.cols_seen.Nodup → (runFile env ds st f).1.cols_seen.Nodup) ∧
    ((runFile env ds st f).1.log.countP isNewColsEv = st.log.countP isNewColsEv) := by
  cases hfa : fileAction env f with
  | skip =>
    rw [runFile_eq_skip hfa]
    have hrec : fileRecs env f = [] := by simp [fileRecs, hfa]
    refine ⟨rfl, by simp [hrec], by simp [hrec], ?_, fun hn => hn, ?_⟩
    · intro c; simp [hrec]
    · simp [List.countP_append, isNewColsEv, List.countP_cons]
  | read evs fail =>
    have hfail : fail = false := by simpa [fileFails, hfa] using h
    subst hfail
    have hrf : runFile env ds st f =
        ({ runEvs ds f.name st evs with
           ckpt := some (f.name, toString (runEvs ds f.name st evs).stats.rows) }, false) := by
      simp [runFile, hfa, save_ckpt]
    have hrec : fileRecs env f = recsOf evs := by simp [fileRecs, hfa]
    rw [hrf]
    refine ⟨rfl, ?_, ?_, ?_, ?_, ?_⟩
    · show (runEvs ds f.name st evs).lines = st.lines ++ fileRecs env f
      rw [hrec]; exact runEvs_lines ds f.name evs st
    · show (runEvs ds f.name st evs).stats.rows = st.stats.rows + (fileRecs env f).length
      rw [hrec]; exact runEvs_rows ds f.name evs st
    · intro c
      show c ∈ (runEvs ds f.name st evs).cols_seen ↔ _
      rw [hrec]; exact runEvs_cols ds f.name evs st c
    · intro hn
      show ((runEvs ds f.name st evs).cols_seen).Nodup
      exact runEvs_cols_nodup ds f.name evs st hn
    · show ((runEvs ds f.name st evs).log).countP isNewColsEv = _
      exact runEvs_log_newCount ds f.name evs st

theorem runFile_ckpt_shape (env : Env) (ds : String) (st : RunState) (f : SrcFile) :
    (runFile env ds st f).1.ckpt = st.ckpt ∨
      ∃ n r2, (runFile env ds st f).1.ckpt = some (n, r2) := by
  cases hfa : fileAction env f with
  | skip => rw [runFile_eq_skip hfa]; exact Or.inl rfl
  | read evs fail =>
    rw [runFile_eq_read hfa]
    cases fail with
    | true => exact Or.inl (by simpa using runEvs_ckpt ds f.name evs st)
    | false =>
      exact Or.inr ⟨f.name, toString (runEvs ds f.name st evs).stats.rows,
        by simp [save_ckpt]⟩

theorem runFile_log_newCount (env : Env) (ds : String) (st : RunState) (f : SrcFile) :
    (runFile env ds st f).1.log.countP isNewColsEv = st.log.countP isNewColsEv := by
  cases hfa : fileAction env f with
  | skip =>
    rw [runFile_eq_skip hfa]
    simp [List.countP_append, isNewColsEv, List.countP_cons]
  | read evs fail =>
    rw [runFile_eq_read hfa]
    cases fail with
    | true => simpa using runEvs_log_newCount ds f.name evs st
    | false => simpa using runEvs_log_newCount ds f.name evs st

/-! ### Lemmas: the file loop -/

theorem runFilesGo_none (env : Env) (ds : String) (files : List SrcFile) :
    ∀ st : RunState, runFilesGo env ds none st files = runFilesNoSkip env ds st files := by
  induction files with
  | nil => intro st; rfl
  | cons f fs ih =>
    intro st
    show (if skipFile none f.name then runFilesGo env ds none st fs
          else
            let p := runFile env ds st f
            if p.2 then (p.1, true) else runFilesGo env ds none p.1 fs) = _
    simp only [skipFile, if_neg (by simp : ¬ (false = true))]
    show (let p := runFile env ds st f
          if p.2 then (p.1, true) else runFilesGo env ds none p.1 fs) = _
    cases hp : (runFile env ds st f).2 with
    | true => simp [runFilesNoSkip, hp]
    | false => simp [runFilesNoSkip, hp, ih]

theorem runFilesGo_some_filter (env : Env) (ds : String) {L : String} (hL : L ≠ "")
    (files : List SrcFile) : ∀ st : RunState,
    runFilesGo env ds (some L) st files =
      runFilesNoSkip env ds st (files.filter fun f => strLt L f.name) := by
  induction files with
  | nil => intro st; rfl
  | cons f fs ih =>
    intro st
    have hbeq : (L == "") = false := by
      cases hb : L == "" with
      | true => exact absurd (by simpa using hb) hL
      | false => rfl
    cases hle : strLe f.name L with
    | true =>
      have hskip : skipFile (some L) f.name = true := by simp [skipFile, hbeq, hle]
      have hlt : strLt L f.name = false := by
        have := strLe_eq_not_strLt f.name L
        rw [hle] at this
        cases hv : strLt L f.name with
        | true => rw [hv] at this; simp at this
        | false => rfl
      show (if skipFile (some L) f.name then runFilesGo env ds (some L) st fs
            else
              let p := runFile env ds st f
              if p.2 then (p.1, true) else runFilesGo env ds (some L) p.1 fs) = _
      rw [if_pos hskip, ih st]
      simp [List.filter_cons, hlt]
    | false =>
      have hskip : skipFile (some L) f.name = false := by simp [skipFile, hbeq, hle]
      have hlt : strLt L f.name = true := by
        have := strLe_eq_not_strLt f.name L
        rw [hle] at this
        cases hv : strLt L f.name with
        | true => rfl
        | false => rw [hv] at this; simp at this
      show (if skipFile (some L) f.name then runFilesGo env ds (some L) st fs
            else
              let p := runFile env ds st f
              if p.2 then (p.1, true) else runFilesGo env ds (some L) p.1 fs) = _
      rw [if_neg (by simp [hskip])]
      have hfilter : (f :: fs).filter (fun f => strLt L f.name) =
          f :: fs.filter (fun f => strLt L f.name) := by
        simp [List.filter_cons, hlt]
      rw [hfilter]
      show (let p := runFile env ds st f
            if p.2 then (p.1, true) else runFilesGo env ds (some L) p.1 fs) = _
      cases hp : (runFile env ds st f).2 with
      | true => simp [runFilesNoSkip, hp]
      | false => simp [runFilesNoSkip, hp, ih]

theorem runFilesNoSkip_spec (env : Env) (ds : String) (files : List SrcFile) :
    ∀ st : RunState, (∀ f ∈ files, fileFails env f = false) →
    (runFilesNoSkip env ds st files).2 = false ∧
    (runFilesNoSkip env ds st files).1.lines = st.lines ++ allRecs env files ∧
    (runFilesNoSkip env ds st files).1.stats.rows =
      st.stats.rows + (allRecs env files).length ∧
    (∀ c, c ∈ (runFilesNoSkip env ds st files).1.cols_seen ↔
      c ∈ st.cols_seen ∨ ∃ r, r ∈ allRecs env files ∧ c ∈ keys r) ∧
    (st.cols_seen.Nodup → (runFilesNoSkip env ds st files).1.cols_seen.Nodup) := by
  induction files with
  | nil =>
    intro st _
    simp [runFilesNoSkip, allRecs]
  | cons f fs ih =>
    intro st hnf
    have hf : fileFails env f = false := hnf f (by simp)
    have hfs : ∀ g ∈ fs, fileFails env g = false := fun g hg => hnf g (by simp [hg])
    obtain ⟨hsnd, hlines, hrows, hcols, hnodup, _⟩ := runFile_not_fail_spec env ds st f hf
    have hstep : runFilesNoSkip env ds st (f :: fs) =
        runFilesNoSkip env ds (runFile env ds st f).1 fs := by
      show (let p := runFile env ds st f
            if p.2 then (p.1, true) else runFilesNoSkip env ds p.1 fs) = _
      simp [hsnd]
    obtain ⟨ihsnd, ihlines, ihrows, ihcols, ihnodup⟩ := ih (runFile env ds st f).1 hfs
    rw [hstep]
    refine ⟨ihsnd, ?_, ?_, ?_, ?_⟩
    · rw [ihlines, hlines, allRecs_cons, List.append_assoc]
    · rw [ihrows, hrows, allRecs_cons, List.length_append]; omega
    · intro c
      rw [ihcols c, allRecs_cons]
      constructor
      · rintro (hc | ⟨r, hr, hck⟩)
        · rcases (hcols c).mp hc with hc' | ⟨r, hr, hck⟩
          · exact Or.inl hc'
          · exact Or.inr ⟨r, by simp [hr], hck⟩
        · exact Or.inr ⟨r, by simp [hr], hck⟩
      · rintro (hc | ⟨r, hr, hck⟩)
        · exact Or.inl ((hcols c).mpr (Or.inl hc))
        · rcases List.mem_append.mp hr with hr' | hr'
          · exact Or.inl ((hcols c).mpr (Or.inr ⟨r, hr', hck⟩))
          · exact Or.inr ⟨r, hr', hck⟩
    · intro hn; exact ihnodup (hnodup hn)

theorem runFilesGo_cons (env : Env) (ds : String) (ld : Option String)
    (st : RunState) (f : SrcFile) (fs : List SrcFile) :
    runFilesGo env ds ld st (f :: fs) =
      if skipFile ld f.name then runFilesGo env ds ld st fs
      else
        if (runFile env ds st f).2 then ((runFile env ds st f).1, true)
        else runFilesGo env ds ld (runFile env ds st f).1 fs := rfl

theorem runFilesNoSkip_cons (env : Env) (ds : String)
    (st : RunState) (f : SrcFile) (fs : List SrcFile) :
    runFilesNoSkip env ds st (f :: fs) =
      if (runFile env ds st f).2 then ((runFile env ds st f).1, true)
      else runFilesNoSkip env ds (runFile env ds st f).1 fs := rfl

theorem runFilesGo_ckpt_shape (env : Env) (ds : String) (ld : Option String)
    (files : List SrcFile) : ∀ st : RunState,
    (runFilesGo env ds ld st files).1.ckpt = st.ckpt ∨
      ∃ n r2, (runFilesGo env ds ld st files).1.ckpt = some (n, r2) := by
  induction files with
  | nil => intro st; exact Or.inl rfl
  | cons f fs ih =>
    intro st
    rw [runFilesGo_cons]
    by_cases hs : skipFile ld f.name
    · rw [if_pos hs]; exact ih st
    · rw [if_neg hs]
      cases hp : (runFile env ds st f).2 with
      | true =>
        rw [if_pos rfl]
        exact runFile_ckpt_shape env ds st f
      | false =>
        rw [if_neg (by simp)]
        rcases ih (runFile env ds st f).1 with hih | hih
        · rw [hih]
          exact runFile_ckpt_shape env ds st f
        · exact Or.inr hih

theorem runFilesGo_log_newCount (env : Env) (ds : String) (ld : Option String)
    (files : List SrcFile) : ∀ st : RunState,
    (runFilesGo env ds ld st files).1.log.countP isNewColsEv =
      st.log.countP isNewColsEv := by
  induction files with
  | nil => intro st; rfl
  | cons f fs ih =>
    intro st
    rw [runFilesGo_cons]
    by_cases hs : skipFile ld f.name
    · rw [if_pos hs]; exact ih st
    · rw [if_neg hs]
      cases hp : (runFile env ds st f).2 with
      | true =>
        rw [if_pos rfl]
        exact runFile_log_newCount env ds st f
      | false =>
        rw [if_neg (by simp)]
        rw [ih (runFile env ds st f).1, runFile_log_newCount]

/-! ### Lemmas: sorting is a permutation -/

theorem insLe_perm {α : Type} (f : α → String) (x : α) :
    ∀ l : List α, (insLe f x l).Perm (x :: l) := by
  intro l
  induction l with
  | nil => exact List.Perm.refl _
  | cons y ys ih =>
    show (if strLe (f x) (f y) then x :: y :: ys else y :: insLe f x ys).Perm _
    by_cases h : strLe (f x) (f y)
    · rw [if_pos h]
    · rw [if_neg h]
      exact (List.Perm.cons y ih).trans (List.Perm.swap x y ys)

theorem sortOn_perm {α : Type} (f : α → String) :
    ∀ l : List α, (sortOn f l).Perm l := by
  intro l
  induction l with
  | nil => exact List.Perm.refl _
  | cons x xs ih =>
    show (insLe f x (sortOn f xs)).Perm _
    exact (insLe_perm f x (sortOn f xs)).trans (List.Perm.cons x ih)

theorem sortFiles_perm (l : List SrcFile) : (sortFiles l).Perm l :=
  sortOn_perm _ l

theorem allRecs_length_perm (env : Env) {l₁ l₂ : List SrcFile} (h : l₁.Perm l₂) :
    (allRecs env l₁).length = (allRecs env l₂).length := by
  rw [allRecs, allRecs, List.length_flatten, List.length_flatten]
  exact ((h.map (fileRecs env)).map List.length).sum_eq

theorem allRecs_mem_perm (env : Env) {l₁ l₂ : List SrcFile} (h : l₁.Perm l₂) (r : Rec) :
    r ∈ allRecs env l₁ ↔ r ∈ allRecs env l₂ := by
  rw [allRecs_mem, allRecs_mem]
  constructor
  · rintro ⟨f, hf, hr⟩; exact ⟨f, h.mem_iff.mp hf, hr⟩
  · rintro ⟨f, hf, hr⟩; exact ⟨f, h.mem_iff.mpr hf, hr⟩

/-! ### Lemmas: the dataset processor -/

theorem process_failed_eq (env : Env) (ds : String) (fs : FS) (folder : List SrcFile)
    (lastDone : Option String) (rowsDone : Nat)
    (hf : fs.folder = some folder)
    (hl : load_ckpt fs.ckptFile = Except.ok (lastDone, rowsDone))
    (hrun : (runFilesGo env ds lastDone (initState fs rowsDone) (sortFiles folder)).2 = true) :
    process env ds fs = Except.ok
      ⟨{ fs with
          part := some (runFilesGo env ds lastDone (initState fs rowsDone) (sortFiles folder)).1.lines,
          ckptFile := (runFilesGo env ds lastDone (initState fs rowsDone) (sortFiles folder)).1.ckpt },
        Report.failed,
        (runFilesGo env ds lastDone (initState fs rowsDone) (sortFiles folder)).1.log ++
          [LogEvent.failure ds],
        some (runFilesGo env ds lastDone (initState fs rowsDone) (sortFiles folder)).1⟩ := by
  simp [process, hf, hl, hrun]

theorem process_success_eq (env : Env) (ds : String) (fs : FS) (folder : List SrcFile)
    (lastDone : Option String) (rowsDone : Nat)
    (hf : fs.folder = some folder)
    (hl : load_ckpt fs.ckptFile = Except.ok (lastDone, rowsDone))
    (hrun : (runFilesGo env ds lastDone (initState fs rowsDone) (sortFiles folder)).2 = false) :
    process env ds fs = Except.ok
      ⟨{ fs with
          part := none,
          ckptFile := none,
          final := some (runFilesGo env ds lastDone (initState fs rowsDone) (sortFiles folder)).1.lines },
        Report.summary
          (runFilesGo env ds lastDone (initState fs rowsDone) (sortFiles folder)).1.stats.rows
          (runFilesGo env ds lastDone (initState fs rowsDone) (sortFiles folder)).1.stats.bad_json
          (runFilesGo env ds lastDone (initState fs rowsDone) (sortFiles folder)).1.stats.dup_seen
          (runFilesGo env ds lastDone (initState fs rowsDone) (sortFiles folder)).1.cols_seen.length,
        (runFilesGo env ds lastDone (initState fs rowsDone) (sortFiles folder)).1.log,
        some (runFilesGo env ds lastDone (initState fs rowsDone) (sortFiles folder)).1⟩ := by
  simp [process, hf, hl, hrun]

theorem process_ok_of_readable (env : Env) (d : String) (fs : FS)
    (h : ckptReadable fs = true) : ∃ r, process env d fs = Except.ok r := by
  cases hfold : fs.folder with
  | none => exact ⟨⟨fs, Report.missing, [], none⟩, by simp [process, hfold]⟩
  | some folder =>
    cases hl : load_ckpt fs.ckptFile with
    | error e => simp [ckptReadable, hl] at h
    | ok pr =>
      obtain ⟨ld, rd⟩ := pr
      cases hrun : (runFilesGo env d ld (initState fs rd) (sortFiles folder)).2 with
      | true => exact ⟨_, process_failed_eq env d fs folder ld rd hfold hl hrun⟩
      | false => exact ⟨_, process_success_eq env d fs folder ld rd hfold hl hrun⟩

theorem runAllGo_map (env : Env) (world : String → FS) :
    ∀ l : List String, (∀ d ∈ l, ckptReadable (world d) = true) →
    runAllGo env world l = (l.map fun d => (d, processReport env d (world d)), false) := by
  intro l
  induction l with
  | nil => intro _; rfl
  | cons d ds ih =>
    intro h
    obtain ⟨r, hr⟩ := process_ok_of_readable env d (world d) (h d (by simp))
    have hrp : processReport env d (world d) = r.report := by simp [processReport, hr]
    simp [runAllGo, hr, ih (fun x hx => h x (by simp [hx])), hrp]

/-! ### Claim theorems -/

/-- Claim C3: on an unrecovered exception during reading or writing, the
output stream is closed with the part-file and checkpoint left in place
(the checkpoint is never deleted by the failure path) and no rename to the
final artifact name happens; the final artifact name is only ever produced
by the rename of the success path, after all source files complete. -/
theorem claim_C3 (env : Env) (ds : String) (fs : FS) (res : ProcResult)
    (hok : process env ds fs = Except.ok res) :
    (res.report = Report.failed →
      res.fs.final = fs.final ∧ (∃ l, res.fs.part = some l) ∧
        (res.fs.ckptFile = none → fs.ckptFile = none)) ∧
    (res.fs.final ≠ fs.final →
      ∃ a b c d, res.report = Report.summary a b c d) := by
  cases hfold : fs.folder with
  | none =>
    rw [show process env ds fs = Except.ok ⟨fs, Report.missing, [], none⟩ from by
      simp [process, hfold]] at hok
    obtain rfl : (⟨fs, Report.missing, [], none⟩ : ProcResult) = res := Except.ok.inj hok
    constructor
    · intro h; exact absurd h (by simp)
    · intro h; exact absurd rfl h
  | some folder =>
    cases hl : load_ckpt fs.ckptFile with
    | error e => simp [process, hfold, hl] at hok
    | ok pr =>
      obtain ⟨ld, rd⟩ := pr
      cases hrun : (runFilesGo env ds ld (initState fs rd) (sortFiles folder)).2 with
      | true =>
        rw [process_failed_eq env ds fs folder ld rd hfold hl hrun] at hok
        obtain rfl := Except.ok.inj hok
        constructor
        · intro _
          refine ⟨rfl, ⟨_, rfl⟩, ?_⟩
          intro hnone
          rcases runFilesGo_ckpt_shape env ds ld (sortFiles folder) (initState fs rd) with
            hsh | ⟨n, r2, hsh⟩
          · have : (initState fs rd).ckpt = none := by
              rw [← hsh]; exact hnone
            simpa [initState] using this
          · rw [hsh] at hnone; cases hnone
        · intro h; exact absurd rfl h
      | false =>
        rw [process_success_eq env ds fs folder ld rd hfold hl hrun] at hok
        obtain rfl := Except.ok.inj hok
        constructor
        · intro h; exact absurd h (by simp)
        · intro _; exact ⟨_, _, _, _, rfl⟩

/-- Witness for C3: the dataset `fs3`, whose only CSV file raises after one
yielded record, exercises the failure path: the final name is untouched,
the part-file exists, and the checkpoint was not deleted. -/
theorem claim_C3_witness :
    process envW "d" fs3 = Except.ok res3 ∧
    (res3.report = Report.failed →
      res3.fs.final = fs3.final ∧ (∃ l, res3.fs.part = some l) ∧
        (res3.fs.ckptFile = none → fs3.ckptFile = none)) ∧
    (res3.fs.final ≠ fs3.final →
      ∃ a b c d, res3.report = Report.summary a b c d) :=
  ⟨by rfl, claim_C3 envW "d" fs3 res3 (by rfl)⟩

/-- Claim C4 (corrected): a `process` failure raised inside the guarded
reading/writing block is caught, reported, and the remaining datasets are
still processed — provided every dataset's checkpoint file loads without
raising.  (`load_ckpt` runs before the guarded block, so a checkpoint whose
second line is not a numeral kills the whole run; see the
counterexample.) -/
theorem claim_C4 (env : Env) (world : String → FS)
    (h : ∀ d ∈ datasetNames, ckptReadable (world d) = true) :
    run_all env world =
      (datasetNames.map fun d => (d, processReport env d (world d)), false) :=
  runAllGo_map env world datasetNames h

/-- Witness for C4: under `worldG` the `orders` dataset fails inside its
reader (caught); the run still reaches the three remaining datasets. -/
theorem claim_C4_witness :
    (∀ d ∈ datasetNames, ckptReadable (worldG d) = true) ∧
    run_all envW worldG =
      (datasetNames.map fun d => (d, processReport envW d (worldG d)), false) :=
  ⟨by decide, claim_C4 envW worldG (by decide)⟩

/-- Counterexample to C4 as stated: a dataset whose checkpoint file carries
the non-numeric row count `abc` makes `int()` raise before the guarded
block; the exception escapes `process`, `run_all` dies, and none of the
remaining datasets is processed (the report list is empty and the
uncaught-exception flag is set). -/
theorem claim_C4_counterexample :
    run_all envW worldBad = ([], true) ∧
    process envW "orders" (worldBad "orders") = Except.error () ∧
    datasetNames.length = 4 := by
  refine ⟨by rfl, by rfl, by rfl⟩

/-- Claim C7 (code bug): the dataset `fs7` contributes a brand-new column
(`x`, counted in the summary's distinct-column count of 1), yet the log
contains zero new-column diagnostics: the readers add every key to
`cols_seen` before yielding, so the loop's `col not in cols_seen` test
never fires and the new-column report is dead code. -/
theorem claim_C7_code_bug :
    (process envW "tracks" fs7).map
        (fun r => (r.report, r.log.countP isNewColsEv)) =
      Except.ok (Report.summary 1 0 false 1, 0) := by
  rfl

/-- Claim C2: when the run starts with a checkpoint naming a (nonempty)
last-completed file `L`, the file loop is exactly the unguarded loop run on
the files whose names are strictly greater than `L` — every file `≤ L` is
skipped without touching a record, every kept file is read from its start —
and with no checkpoint the loop is the unguarded loop on all files. -/
theorem claim_C2 (env : Env) (ds L : String) (st : RunState) (files : List SrcFile) :
    (L ≠ "" → runFilesGo env ds (some L) st files =
      runFilesNoSkip env ds st (files.filter fun f => strLt L f.name)) ∧
    runFilesGo env ds none st files = runFilesNoSkip env ds st files :=
  ⟨fun hL => runFilesGo_some_filter env ds hL files st, runFilesGo_none env ds files st⟩

/-- Witness for C2 at a concrete listing: checkpoint `b.json` keeps only
`c.csv`. -/
theorem claim_C2_witness :
    ("b.json" : String) ≠ "" ∧
    runFilesGo envW "t" (some "b.json") stW filesW =
      runFilesNoSkip envW "t" stW (filesW.filter fun f => strLt "b.json" f.name) ∧
    runFilesGo envW "t" none stW filesW = runFilesNoSkip envW "t" stW filesW :=
  ⟨by decide, (claim_C2 envW "t" "b.json" stW filesW).1 (by decide),
    (claim_C2 envW "t" "b.json" stW filesW).2⟩

/-- Claim C5: for a line-JSON file, every line that fails to parse is
skipped and adds one to the malformed counter while the rest of the file is
still read; the file completes (no abort) and is checkpointed with its name
and the cumulative row count. -/
theorem claim_C5 (env : Env) (ds : String) (st : RunState) (f : SrcFile)
    (hext : lowerStr (pathSuffix f.name) = ".json") :
    (runFile env ds st f).2 = false ∧
    (runFile env ds st f).1.lines = st.lines ++ jsonGoodRecs env f.lines ∧
    (runFile env ds st f).1.stats.rows =
      st.stats.rows + (jsonGoodRecs env f.lines).length ∧
    (runFile env ds st f).1.stats.bad_json =
      st.stats.bad_json + jsonBadCount env f.lines ∧
    (runFile env ds st f).1.ckpt =
      some (f.name, toString (st.stats.rows + (jsonGoodRecs env f.lines).length)) := by
  have hfa : fileAction env f =
      FileAction.read (f.lines.filterMap (jsonLineEv env)) false := by
    simp only [fileAction]
    rw [hext, if_neg (by decide), if_pos (by decide)]
  have hrf : runFile env ds st f =
      ({ runEvs ds f.name st (f.lines.filterMap (jsonLineEv env)) with
         ckpt := some (f.name,
           toString (runEvs ds f.name st (f.lines.filterMap (jsonLineEv env))).stats.rows) },
       false) := by
    simp [runFile, hfa, save_ckpt]
  rw [hrf]
  refine ⟨rfl, ?_, ?_, ?_, ?_⟩
  · show (runEvs ds f.name st (f.lines.filterMap (jsonLineEv env))).lines = _
    exact runEvs_lines ds f.name _ st
  · show (runEvs ds f.name st (f.lines.filterMap (jsonLineEv env))).stats.rows = _
    exact runEvs_rows ds f.name _ st
  · show (runEvs ds f.name st (f.lines.filterMap (jsonLineEv env))).stats.bad_json = _
    rw [runEvs_bad_json ds f.name _ st]
    rfl
  · show some (f.name,
        toString (runEvs ds f.name st (f.lines.filterMap (jsonLineEv env))).stats.rows) = _
    rw [runEvs_rows ds f.name _ st]
    rfl

/-- Witness for C5: the file `fW` has 3 well-formed and 2 malformed lines
under `envW`; it yields exactly 3 written records, malformed-count 2, and a
checkpoint of `(d.json, 3)` from a fresh state. -/
theorem claim_C5_witness :
    lowerStr (pathSuffix fW.name) = ".json" ∧
    ((runFile envW "tracks" stW fW).2 = false ∧
     (runFile envW "tracks" stW fW).1.lines = stW.lines ++ jsonGoodRecs envW fW.lines ∧
     (runFile envW "tracks" stW fW).1.stats.rows =
       stW.stats.rows + (jsonGoodRecs envW fW.lines).length ∧
     (runFile envW "tracks" stW fW).1.stats.bad_json =
       stW.stats.bad_json + jsonBadCount envW fW.lines ∧
     (runFile envW "tracks" stW fW).1.ckpt =
       some (fW.name, toString (stW.stats.rows + (jsonGoodRecs envW fW.lines).length))) ∧
    (jsonGoodRecs envW fW.lines).length = 3 ∧
    jsonBadCount envW fW.lines = 2 ∧
    (runFile envW "tracks" stW fW).1.ckpt = some ("d.json", "3") :=
  ⟨by decide, claim_C5 envW "tracks" stW fW (by decide), by decide, by decide, by decide⟩

/-- Claim C6: inside one run, when a record's key-sorted serialization
(content digest) equals that of an earlier record of the same run,
`dup_seen` is true right after that second occurrence, is still true after
any further events, and every record of the stream — duplicates included —
is written to the output. -/
theorem claim_C6 (ds path : String) (st : RunState) (pre mid post : List Ev)
    (r r' : Rec) (hdup : row_hash r = row_hash r') :
    (runEvs ds path st (pre ++ [Ev.record r] ++ mid ++ [Ev.record r'])).stats.dup_seen
      = true ∧
    (runEvs ds path st
        (pre ++ [Ev.record r] ++ mid ++ [Ev.record r'] ++ post)).stats.dup_seen = true ∧
    (runEvs ds path st (pre ++ [Ev.record r] ++ mid ++ [Ev.record r'] ++ post)).lines =
      st.lines ++ recsOf (pre ++ [Ev.record r] ++ mid ++ [Ev.record r'] ++ post) := by
  have h1 : row_hash r ∈ (runEvs ds path st (pre ++ [Ev.record r])).hashes := by
    rw [runEvs_append]
    exact evStep_hash_self ds path _ r
  have h2 : row_hash r' ∈ (runEvs ds path st (pre ++ [Ev.record r] ++ mid)).hashes := by
    rw [runEvs_append]
    exact runEvs_hashes_mono ds path mid _ _ (hdup ▸ h1)
  have hA : (runEvs ds path st
      (pre ++ [Ev.record r] ++ mid ++ [Ev.record r'])).stats.dup_seen = true := by
    rw [runEvs_append]
    exact evStep_dup_of_mem ds path h2
  refine ⟨hA, ?_, runEvs_lines ds path _ st⟩
  rw [runEvs_append]
  exact runEvs_dup_mono ds path post _ hA

/-- Witness for C6: `rW` and `rW2` hold the same pairs in different
insertion orders, so their key-sorted serializations coincide; with a bad
line before, a distinct record between, and further events after, the flag
is set at the second occurrence and survives to the end, with all records
written. -/
theorem claim_C6_witness :
    row_hash rW = row_hash rW2 ∧
    ((runEvs "t" "p" stW (preW ++ [Ev.record rW] ++ midW ++ [Ev.record rW2])).stats.dup_seen
        = true ∧
     (runEvs "t" "p" stW
        (preW ++ [Ev.record rW] ++ midW ++ [Ev.record rW2] ++ postW)).stats.dup_seen = true ∧
     (runEvs "t" "p" stW
        (preW ++ [Ev.record rW] ++ midW ++ [Ev.record rW2] ++ postW)).lines =
       stW.lines ++ recsOf (preW ++ [Ev.record rW] ++ midW ++ [Ev.record rW2] ++ postW)) :=
  ⟨by decide, claim_C6 "t" "p" stW preW midW postW rW rW2 (by decide)⟩

/-- Claim C8: after a run with no prior checkpoint completes, the
accumulated column set (whose size the summary reports as the distinct
column count) holds exactly the union of the normalized keys of all
successfully parsed records across the non-skipped source files. -/
theorem claim_C8 (env : Env) (ds : String) (fs : FS) (folder : List SrcFile)
    (hf : fs.folder = some folder) (hc : fs.ckptFile = none)
    (hnf : ∀ f ∈ folder, fileFails env f = false) :
    ∃ res st, process env ds fs = Except.ok res ∧ res.state = some st ∧
      (∀ c, c ∈ st.cols_seen ↔ ∃ r, r ∈ allRecs env folder ∧ c ∈ keys r) ∧
      st.cols_seen.Nodup ∧
      res.report = Report.summary st.stats.rows st.stats.bad_json st.stats.dup_seen
        st.cols_seen.length := by
  have hl : load_ckpt fs.ckptFile = Except.ok (none, 0) := by rw [hc]; rfl
  have hnf' : ∀ f ∈ sortFiles folder, fileFails env f = false := fun f hf' =>
    hnf f ((sortFiles_perm folder).mem_iff.mp hf')
  have hgo := runFilesGo_none env ds (sortFiles folder) (initState fs 0)
  obtain ⟨hsnd, _, _, hcols, hnodup⟩ :=
    runFilesNoSkip_spec env ds (sortFiles folder) (initState fs 0) hnf'
  have hrun : (runFilesGo env ds none (initState fs 0) (sortFiles folder)).2 = false := by
    rw [hgo]; exact hsnd
  refine ⟨_, _, process_success_eq env ds fs folder none 0 hf hl hrun, rfl, ?_, ?_, rfl⟩
  · intro c
    rw [hgo, hcols c]
    have hnil : c ∈ (initState fs 0).cols_seen ↔ False := by simp [initState]
    rw [hnil]
    constructor
    · rintro (h | ⟨r, hr, hk⟩)
      · exact h.elim
      · exact ⟨r, (allRecs_mem_perm env (sortFiles_perm folder) r).mp hr, hk⟩
    · rintro ⟨r, hr, hk⟩
      exact Or.inr ⟨r, (allRecs_mem_perm env (sortFiles_perm folder) r).mpr hr, hk⟩
  · rw [hgo]
    exact hnodup (by simp [initState])

/-- Witness for C8 on the two-file dataset `fs8`: the column set is the
union `{x, b, k}` of the keys across both files. -/
theorem claim_C8_witness :
    fs8.folder = some folder8 ∧ fs8.ckptFile = none ∧
    (∀ f ∈ folder8, fileFails envW f = false) ∧
    (∃ res st, process envW "t" fs8 = Except.ok res ∧ res.state = some st ∧
      (∀ c, c ∈ st.cols_seen ↔ ∃ r, r ∈ allRecs envW folder8 ∧ c ∈ keys r) ∧
      st.cols_seen.Nodup ∧
      res.report = Report.summary st.stats.rows st.stats.bad_json st.stats.dup_seen
        st.cols_seen.length) :=
  ⟨by rfl, by rfl, by decide, claim_C8 envW "t" fs8 folder8 (by rfl) (by rfl) (by decide)⟩

/-- Claim C1 (amended): resuming from a checkpoint `(F, R)` whose
part-file holds exactly `R` lines — the state a file-boundary interruption
leaves behind — and then completing without error yields a final artifact
of exactly `R` plus the records parsed from the files strictly after `F`;
when the crash had already flushed records of the in-progress file, the
artifact instead has those extra lines too (see the counterexample). -/
theorem claim_C1 (env : Env) (ds : String) (fs : FS) (folder : List SrcFile)
    (F r2 : String) (R : Nat) (pl : List Rec)
    (hf : fs.folder = some folder)
    (hc : fs.ckptFile = some (F, r2))
    (hFs : pyStrip F = F) (hF : F ≠ "")
    (hr2 : pyStrip r2 = r2) (hR : pyInt r2 = some R)
    (hp : fs.part = some pl) (hlen : pl.length = R)
    (hnf : ∀ f ∈ folder, strLt F f.name = true → fileFails env f = false) :
    ∃ res l, process env ds fs = Except.ok res ∧ res.fs.final = some l ∧
      l.length = R + (allRecs env (folder.filter fun f => strLt F f.name)).length ∧
      ∃ b d c, res.report = Report.summary
        (R + (allRecs env (folder.filter fun f => strLt F f.name)).length) b d c := by
  have hr2ne : r2 ≠ "" := by
    intro h; rw [h] at hR; simp [pyInt] at hR
  have hl : load_ckpt fs.ckptFile = Except.ok (some F, R) := by
    rw [hc]
    simp [load_ckpt, hFs, hr2, hr2ne, hR]
  have hlines0 : (initState fs R).lines = pl := by
    by_cases hR0 : R = 0
    · subst hR0
      have hple : pl = [] := List.length_eq_zero.mp hlen
      simp [initState, hple]
    · simp [initState, hR0, hp]
  have hrows0 : (initState fs R).stats.rows = R := rfl
  have hfilt := runFilesGo_some_filter env ds hF (sortFiles folder) (initState fs R)
  have hnf' : ∀ f ∈ (sortFiles folder).filter (fun f => strLt F f.name),
      fileFails env f = false := by
    intro f hmem
    have h1 := List.mem_filter.mp hmem
    exact hnf f ((sortFiles_perm folder).mem_iff.mp h1.1) (by simpa using h1.2)
  obtain ⟨hsnd, hlines, hrows, _, _⟩ :=
    runFilesNoSkip_spec env ds ((sortFiles folder).filter (fun f => strLt F f.name))
      (initState fs R) hnf'
  have hrun : (runFilesGo env ds (some F) (initState fs R) (sortFiles folder)).2 = false := by
    rw [hfilt]; exact hsnd
  have hlenperm :
      (allRecs env ((sortFiles folder).filter (fun f => strLt F f.name))).length =
        (allRecs env (folder.filter fun f => strLt F f.name)).length :=
    allRecs_length_perm env ((sortFiles_perm folder).filter _)
  have hfinal :
      (runFilesGo env ds (some F) (initState fs R) (sortFiles folder)).1.lines.length =
        R + (allRecs env (folder.filter fun f => strLt F f.name)).length := by
    rw [hfilt, hlines, List.length_append, hlines0, hlen, hlenperm]
  have hrows2 :
      (runFilesGo env ds (some F) (initState fs R) (sortFiles folder)).1.stats.rows =
        R + (allRecs env (folder.filter fun f => strLt F f.name)).length := by
    rw [hfilt, hrows, hrows0, hlenperm]
  refine ⟨_, _, process_success_eq env ds fs folder (some F) R hf hl hrun, rfl, hfinal,
    (runFilesGo env ds (some F) (initState fs R) (sortFiles folder)).1.stats.bad_json,
    (runFilesGo env ds (some F) (initState fs R) (sortFiles folder)).1.stats.dup_seen,
    (runFilesGo env ds (some F) (initState fs R) (sortFiles folder)).1.cols_seen.length, ?_⟩
  show Report.summary
      (runFilesGo env ds (some F) (initState fs R) (sortFiles folder)).1.stats.rows
      (runFilesGo env ds (some F) (initState fs R) (sortFiles folder)).1.stats.bad_json
      (runFilesGo env ds (some F) (initState fs R) (sortFiles folder)).1.stats.dup_seen
      (runFilesGo env ds (some F) (initState fs R) (sortFiles folder)).1.cols_seen.length =
    Report.summary (R + (allRecs env (folder.filter fun f => strLt F f.name)).length)
      (runFilesGo env ds (some F) (initState fs R) (sortFiles folder)).1.stats.bad_json
      (runFilesGo env ds (some F) (initState fs R) (sortFiles folder)).1.stats.dup_seen
      (runFilesGo env ds (some F) (initState fs R) (sortFiles folder)).1.cols_seen.length
  rw [hrows2]

/-- Witness for C1 (amended) at the consistent resume state `fs1W`:
checkpoint `(a.json, 1)`, one line in the part-file, one record in the one
file after `a.json`, final artifact of 1 + 1 = 2 lines. -/
theorem claim_C1_witness :
    fs1W.folder = some folder1 ∧
    fs1W.ckptFile = some ("a.json", "1") ∧
    pyStrip "a.json" = "a.json" ∧ ("a.json" : String) ≠ "" ∧
    pyStrip "1" = "1" ∧ pyInt "1" = some 1 ∧
    fs1W.part = some [[("a", "1")]] ∧ ([[("a", "1")]] : List Rec).length = 1 ∧
    (∀ f ∈ folder1, strLt "a.json" f.name = true → fileFails envOk f = false) ∧
    (∃ res l, process envOk "tracks" fs1W = Except.ok res ∧ res.fs.final = some l ∧
      l.length = 1 + (allRecs envOk (folder1.filter fun f => strLt "a.json" f.name)).length ∧
      ∃ b d c, res.report = Report.summary
        (1 + (allRecs envOk (folder1.filter fun f => strLt "a.json" f.name)).length) b d c) :=
  ⟨by rfl, by rfl, by decide, by decide, by decide, by decide, by rfl, by decide, by decide,
    claim_C1 envOk "tracks" fs1W folder1 "a.json" "1" 1 [[("a", "1")]]
      (by rfl) (by rfl) (by decide) (by decide) (by decide) (by decide) (by rfl) (by decide)
      (by decide)⟩

/-- Counterexample to C1 as stated: the code's own failure path, killed
inside `b.csv` after one of its records was flushed, leaves checkpoint
`(a.json, 1)` with a part-file of 2 lines (`fsCrashed`); the resumed run
then completes with a 3-line artifact, while the claim's arithmetic
`R + (records after F) = 1 + 1` predicts 2. -/
theorem claim_C1_counterexample :
    (process envFail "tracks" fsFresh).map (fun r => (r.fs, r.report)) =
      Except.ok (fsCrashed, Report.failed) ∧
    (process envOk "tracks" fsCrashed).map (fun r => r.fs.final.map List.length) =
      Except.ok (some 3) ∧
    pyInt "1" = some 1 ∧
    1 + (allRecs envOk (folder1.filter fun f => strLt "a.json" f.name)).length = 2 ∧
    (3 : Nat) ≠ 2 :=
  ⟨by rfl, by rfl, by rfl, by rfl, by decide⟩

/-! ### Lemmas: the dot-splitting normalizer -/

theorem splitDot_ne_nil : ∀ cs : List Char, splitDot cs ≠ [] := by
  intro cs
  induction cs with
  | nil => simp [splitDot]
  | cons c cs ih =>
    simp only [splitDot]
    cases h : splitDot cs with
    | nil => exact absurd h ih
    | cons g gs => by_cases hc : c = '.' <;> simp [hc]

theorem splitDot_no_dot : ∀ cs : List Char, '.' ∉ cs → splitDot cs = [cs] := by
  intro cs
  induction cs with
  | nil => intro _; rfl
  | cons c cs ih =>
    intro h
    have hc : ¬ c = '.' := fun hcc => h (by simp [hcc])
    have hcs : '.' ∉ cs := fun hm => h (by simp [hm])
    simp only [splitDot]
    rw [ih hcs]
    simp [hc]

theorem splitDot_two_le : ∀ cs : List Char, '.' ∈ cs → 2 ≤ (splitDot cs).length := by
  intro cs
  induction cs with
  | nil => intro h; cases h
  | cons c cs ih =>
    intro hmem
    simp only [splitDot]
    cases h : splitDot cs with
    | nil => exact absurd h (splitDot_ne_nil cs)
    | cons g gs =>
      by_cases hc : c = '.'
      · simp [hc]
      · have hdot : '.' ∈ cs := by
          rcases List.mem_cons.mp hmem with h1 | h1
          · exact absurd h1.symm hc
          · exact h1
        have h2 := ih hdot
        rw [h] at h2
        simp only [List.length_cons] at h2
        simp [hc]
        omega

theorem splitDot_getLastD_cons (c : Char) (cs : List Char) (hmem : '.' ∈ cs) :
    (splitDot (c :: cs)).getLastD [] = (splitDot cs).getLastD [] := by
  cases h : splitDot cs with
  | nil => exact absurd h (splitDot_ne_nil cs)
  | cons g gs =>
    simp only [splitDot]
    rw [h]
    by_cases hc : c = '.'
    · simp [hc, List.getLastD_cons]
    · have h2 := splitDot_two_le cs hmem
      rw [h] at h2
      cases gs with
      | nil => simp at h2
      | cons g2 gs2 => simp [hc, List.getLastD_cons]

theorem splitDot_append_dot (bs : List Char) (hb : '.' ∉ bs) :
    ∀ as : List Char, (splitDot (as ++ '.' :: bs)).getLastD [] = bs := by
  intro as
  induction as with
  | nil =>
    rw [List.nil_append]
    simp only [splitDot]
    rw [splitDot_no_dot bs hb]
    simp [List.getLastD_cons]
  | cons a as ih =>
    have hmem : '.' ∈ as ++ '.' :: bs := by simp
    rw [show (a :: as) ++ '.' :: bs = a :: (as ++ '.' :: bs) from rfl,
      splitDot_getLastD_cons a _ hmem, ih]

/-- Claim C9: the column normalizer keeps only the suffix after the last
occurrence of the namespace separator `.` — a key with no separator is
returned unchanged, and `a ++ "." ++ b` with no dot in `b` normalizes to
`b` (so `a.b.c` becomes `c`). -/
theorem claim_C9 (k a b : String) :
    ('.' ∉ k.data → normKey k = k) ∧
    ('.' ∉ b.data → normKey (a ++ "." ++ b) = b) := by
  constructor
  · intro h
    rw [normKey, splitDot_no_dot k.data h]
    rfl
  · intro hb
    have hdata : (a ++ "." ++ b).data = a.data ++ '.' :: b.data := by
      rw [String.data_append, String.data_append,
        show ("." : String).data = ['.'] from rfl, List.append_assoc]
      rfl
    rw [normKey, hdata, splitDot_append_dot b.data hb a.data]

/-- Witness for C9: `abc` has no dot and is unchanged; `a.b.c`, written as
`"a.b" ++ "." ++ "c"`, normalizes to `c`. -/
theorem claim_C9_witness :
    ('.' ∉ ("abc" : String).data ∧ '.' ∉ ("c" : String).data) ∧
    normKey "abc" = "abc" ∧ normKey ("a.b" ++ "." ++ "c") = "c" :=
  ⟨⟨by decide, by decide⟩, (claim_C9 "abc" "a.b" "c").1 (by decide),
    (claim_C9 "abc" "a.b" "c").2 (by decide)⟩

/-- Claim C10: a line that strips to the empty string is silently dropped
by the line-JSON reader: it yields no event at all — no record, no
malformed-count increment, no diagnostic — and the file's event stream is
as if the line were absent. -/
theorem claim_C10 (env : Env) (line : String) (l1 l2 : List String)
    (h : pyStrip line = "") :
    jsonLineEv env line = none ∧
    (l1 ++ line :: l2).filterMap (jsonLineEv env) =
      (l1 ++ l2).filterMap (jsonLineEv env) := by
  have h0 : jsonLineEv env line = none := by simp [jsonLineEv, h]
  refine ⟨h0, ?_⟩
  simp [List.filterMap_append, List.filterMap_cons, h0]

/-- Witness for C10: a line of blanks and tabs inside a small file changes
nothing. -/
theorem claim_C10_witness :
    pyStrip "  \t " = "" ∧
    (jsonLineEv envW "  \t " = none ∧
     (["g1"] ++ "  \t " :: ["g2"]).filterMap (jsonLineEv envW) =
       (["g1"] ++ ["g2"]).filterMap (jsonLineEv envW)) :=
  ⟨by decide, claim_C10 envW "  \t " ["g1"] ["g2"] (by decide)⟩

end Assessment
